import Mathlib

/-!
Verification of the Virtual-Game-Simulator core (Project2) against its
specification. The C sources embedded here are `src/Project2/system.c`,
`src/Project2/event.c` and `src/Project2/resource.c`. The header `defs.h`
only declares the record types and status constants; the fields used below
are exactly those read and written by the C functions, and the status
constants are modelled as an enumeration. Machine integers are modelled as
`Int`; locking (`sem_wait`/`sem_post`) and sleeping (`usleep`) are modelled
as an explicit action trace emitted by each operation; a NULL-pointer
dereference is modelled by returning `Except.error ()`.
-/

namespace VGS

/-- Status constants declared in `defs.h` and used by `system.c`/`event.c`
(`STATUS_OK`, `STATUS_EMPTY`, `STATUS_INSUFFICIENT`, `STATUS_CAPACITY`),
modelled as an enumeration. -/
inductive Status where
  | ok
  | empty
  | insufficient
  | capacity
deriving DecidableEq, Repr

/-- A `Resource` (`resource.c` / `defs.h`): the fields mutated and read by
`system_convert` and `system_store_resources` are `amount` and
`max_capacity`; the `name` string and the semaphore are not part of the
pure state (the semaphore appears in the action trace instead). -/
structure Resource where
  amount : Int
  max_capacity : Int
deriving DecidableEq, Repr

/-- One action on a resource's or queue's synchronization state:
`acq` is `sem_wait`, `rel` is `sem_post`, `sleep` is `usleep`. -/
inductive LockAct where
  | acq
  | rel
  | sleep
deriving DecidableEq, Repr

/-- Net number of locks still held after executing a trace:
acquisitions minus releases. -/
def locksHeld : List LockAct → Int
  | [] => 0
  | LockAct.acq :: t => 1 + locksHeld t
  | LockAct.rel :: t => locksHeld t - 1
  | LockAct.sleep :: t => locksHeld t

/-- Auxiliary scan for `sleepsWhileLocked`, carrying the number of locks
currently held. -/
def sleepsWhileLockedFrom : Int → List LockAct → Bool
  | _, [] => false
  | held, LockAct.acq :: t => sleepsWhileLockedFrom (held + 1) t
  | held, LockAct.rel :: t => sleepsWhileLockedFrom (held - 1) t
  | held, LockAct.sleep :: t =>
      if 0 < held then true else sleepsWhileLockedFrom held t

/-- True when some `usleep` in the trace happens while at least one lock is
held. -/
def sleepsWhileLocked (t : List LockAct) : Bool :=
  sleepsWhileLockedFrom 0 t

/-- Result of `system_convert` (`system.c` lines 128-160): the returned
status, the updated consumed resource, the system's updated
`amount_stored`, and the trace of lock/sleep actions executed. -/
structure ConvertOutcome where
  status : Status
  consumed_resource : Resource
  amount_stored : Int
  trace : List LockAct
deriving DecidableEq, Repr

/-- Body of `system_convert` (`system.c` lines 133-159) for a non-null
`consumed_resource` (for a non-null pointer the NULL test at line 135 is
false, so only the else branch of that test appears here). Arguments:
the consumed resource, `system->consumed.amount`, whether
`system->produced.resource` is NULL, `system->produced.amount`, and the
prior `system->amount_stored`. On `sem_wait` the trace records `acq`; on
the success path `system_simulate_process_time` executes `usleep`
(recorded as `sleep`) and then `amount_stored` is updated; `sem_post`
records `rel`. -/
def system_convert_body (consumed : Resource) (amount_consumed : Int)
    (produced_null : Bool) (produced_amount : Int) (amount_stored : Int) :
    ConvertOutcome :=
  let step : Status × Resource :=
    if consumed.amount ≥ amount_consumed then
      (Status.ok, { consumed with amount := consumed.amount - amount_consumed })
    else
      ((if consumed.amount = 0 then Status.empty else Status.insufficient),
        consumed)
  if step.1 = Status.ok then
    { status := step.1
      consumed_resource := step.2
      amount_stored :=
        if ¬ produced_null then amount_stored + produced_amount else 0
      trace := [LockAct.acq, LockAct.sleep, LockAct.rel] }
  else
    { status := step.1
      consumed_resource := step.2
      amount_stored := amount_stored
      trace := [LockAct.acq, LockAct.rel] }

/-- Full `system_convert` (`system.c` lines 128-160). The call
`sem_wait(&consumed_resource->resource_mutex)` at line 133 dereferences
`consumed_resource` BEFORE the NULL test at line 135, so a NULL consumed
resource faults (modelled as `Except.error ()`); the NULL branch at line
135 is unreachable. -/
def system_convert (consumed : Option Resource) (amount_consumed : Int)
    (produced_null : Bool) (produced_amount : Int) (amount_stored : Int) :
    Except Unit ConvertOutcome :=
  match consumed with
  | none => Except.error ()
  | some r =>
      Except.ok
        (system_convert_body r amount_consumed produced_null produced_amount
          amount_stored)

/-- Result of `system_store_resources` (`system.c` lines 200-232). -/
structure StoreOutcome where
  status : Status
  resource : Resource
  amount_stored : Int
  trace : List LockAct
deriving DecidableEq, Repr

/-- Body of `system_store_resources` (`system.c` lines 204-231) for a
non-null `produced_resource`. Line 206's early return (nothing to store)
and line 226's `STATUS_CAPACITY` return both leave the function WITHOUT
executing the `sem_post` at line 230, so their traces end with the lock
still held. -/
def system_store_resources_body (produced : Resource) (amount_stored : Int) :
    StoreOutcome :=
  if amount_stored = 0 then
    { status := Status.ok
      resource := produced
      amount_stored := 0
      trace := [LockAct.acq] }
  else
    let amount_to_store := amount_stored
    let available_space := produced.max_capacity - produced.amount
    let step : Resource × Int :=
      if available_space ≥ amount_to_store then
        ({ produced with amount := produced.amount + amount_to_store }, 0)
      else if available_space > 0 then
        ({ produced with amount := produced.amount + available_space },
          amount_to_store - available_space)
      else
        (produced, amount_stored)
    if step.2 ≠ 0 then
      { status := Status.capacity
        resource := step.1
        amount_stored := step.2
        trace := [LockAct.acq] }
    else
      { status := Status.ok
        resource := step.1
        amount_stored := step.2
        trace := [LockAct.acq, LockAct.rel] }

/-- Full `system_store_resources` (`system.c` lines 200-232). As in
`system_convert`, the `sem_wait` at line 204 dereferences
`produced_resource` before the NULL test at line 206, so a NULL produced
resource faults. -/
def system_store_resources (produced : Option Resource) (amount_stored : Int) :
    Except Unit StoreOutcome :=
  match produced with
  | none => Except.error ()
  | some r => Except.ok (system_store_resources_body r amount_stored)

/-- System status values from `defs.h` (`STANDARD`, `SLOW`, `FAST`,
`TERMINATE`), modelled as an enumeration. -/
inductive SysStatus where
  | standard
  | slow
  | fast
  | terminate
deriving DecidableEq, Repr

/-- The adjusted delay computed by `system_simulate_process_time`
(`system.c` lines 170-187): `SLOW` doubles, `FAST` halves with C `int`
division (truncation toward zero, hence `Int.tdiv`), every other status
falls through to the `default` case. -/
def adjusted_processing_time (status : SysStatus) (processing_time : Int) :
    Int :=
  match status with
  | SysStatus.slow => processing_time * 2
  | SysStatus.fast => processing_time.tdiv 2
  | _ => processing_time

/-- An `Event` (`event.c` / `defs.h`): the `system` and `resource` pointer
fields are modelled as opaque identifiers; `status`, `priority` and
`amount` are the payload set by `event_init`. -/
structure Event where
  system : Nat
  resource : Nat
  status : Status
  priority : Int
  amount : Int
deriving DecidableEq, Repr

/-- The walk of `event_queue_push` (`event.c` lines 98-103): advance while
the next node's priority is `>=` the new event's priority, then link the
new node in. -/
def insert_lower_priority (e : Event) : List Event → List Event
  | [] => [e]
  | n :: rest =>
      if n.priority ≥ e.priority then n :: insert_lower_priority e rest
      else e :: n :: rest

/-- The list update performed by `event_queue_push` (`event.c` lines
93-104): new head when the queue is empty or the current head has strictly
lower priority, otherwise insert after the run of nodes with priority
`>=` the new event's priority. -/
def event_queue_insert (head : List Event) (e : Event) : List Event :=
  match head with
  | [] => [e]
  | h :: t =>
      if h.priority < e.priority then e :: h :: t
      else h :: insert_lower_priority e t

/-- An `EventQueue` (`defs.h`): the linked list reached from `head`
modelled as a list, plus the `size` counter maintained by push/pop. -/
structure EventQueue where
  head : List Event
  size : Int
deriving DecidableEq, Repr

/-- The function `event_queue_init` (`event.c` lines 36-44): it sets `head` to
NULL and initializes the semaphore, but does NOT assign `size`, so `size`
keeps whatever value the field held before the call. -/
def event_queue_init (q : EventQueue) : EventQueue :=
  { q with head := [] }

/-- Full `event_queue_push` (`event.c` lines 76-110): `sem_wait`, allocate
a node (`allocOk` says whether `malloc` succeeds; on failure the queue is
left untouched and the lock is released at line 85), insert in priority
order, increment `size`, `sem_post`. Returns the updated queue and the
lock-action trace. -/
def event_queue_push (allocOk : Bool) (q : EventQueue) (e : Event) :
    EventQueue × List LockAct :=
  if allocOk then
    ({ head := event_queue_insert q.head e, size := q.size + 1 },
      [LockAct.acq, LockAct.rel])
  else
    (q, [LockAct.acq, LockAct.rel])

/-- Result of `event_queue_pop` (`event.c` lines 122-144): the C return
value (0 when empty, 1 otherwise), the updated queue, and the value copied
into the out-parameter (`none` when the out-parameter is not written). -/
structure PopOutcome where
  retval : Int
  queue : EventQueue
  out : Option Event
deriving DecidableEq, Repr

/-- The function `event_queue_pop` (`event.c` lines 122-144): on an empty queue
release the lock and return 0 with nothing written; otherwise copy the
head event out, unlink and free the head node, decrement `size`, release
the lock, return 1. -/
def event_queue_pop (q : EventQueue) : PopOutcome :=
  match q.head with
  | [] => { retval := 0, queue := q, out := none }
  | h :: t =>
      { retval := 1
        queue := { head := t, size := q.size - 1 }
        out := some h }

/-- Repeatedly call `event_queue_pop`, collecting the popped events, until
it reports an empty queue or the fuel runs out. -/
def event_queue_drain : Nat → EventQueue → List Event
  | 0, _ => []
  | fuel + 1, q =>
      match (event_queue_pop q).out with
      | none => []
      | some e => e :: event_queue_drain fuel (event_queue_pop q).queue

/-- A fixed sample event used to evaluate the queue operations at concrete
inputs. -/
def sampleEvent : Event :=
  { system := 0, resource := 0, status := Status.capacity, priority := 1,
    amount := 10 }

/-- C7: the claim says a NULL `consumed.resource` makes the consume step of
`system_convert` be skipped and succeed with `STATUS_OK` without touching
any Resource. In the code, `sem_wait(&consumed_resource->resource_mutex)`
at line 133 runs BEFORE the NULL test at line 135, dereferencing the null
pointer: a producer-only worker faults instead of succeeding. -/
theorem null_consumed_resource_faults :
    system_convert none 1 false 25 0 = Except.error () := rfl

/-- C6: the claim says every exit path of `system_convert` and
`system_store_resources` releases the Resource lock before returning, and
no sleep happens inside the critical section. The code violates both: the
`STATUS_CAPACITY` return of `system_store_resources` (line 227) leaves the
function with the lock still held (trace `[acq]`, one lock outstanding),
and the success path of `system_convert` executes
`system_simulate_process_time`'s `usleep` (line 148) between `sem_wait`
(line 133) and `sem_post` (line 158). -/
theorem lock_discipline_violated :
    (system_store_resources_body { amount := 50, max_capacity := 50 } 10).status
        = Status.capacity ∧
    (system_store_resources_body { amount := 50, max_capacity := 50 } 10).trace
        = [LockAct.acq] ∧
    locksHeld
        (system_store_resources_body { amount := 50, max_capacity := 50 } 10).trace
        = 1 ∧
    (system_convert_body { amount := 30, max_capacity := 50 } 5 false 25 0).trace
        = [LockAct.acq, LockAct.sleep, LockAct.rel] ∧
    sleepsWhileLocked
        (system_convert_body { amount := 30, max_capacity := 50 } 5 false 25 0).trace
        = true :=
  ⟨rfl, rfl, rfl, rfl, rfl⟩

/-- C5: the claim says that after `event_queue_init` and N pushes and M pops
the queue's size equals N - M. `event_queue_init` (lines 36-44) sets
`head` and initializes the mutex but never assigns `size`, so `size`
retains its pre-init (uninitialized) value: starting from a stale value 5,
one push and zero pops leave `size = 6`, not 1, even though the queue then
holds exactly one event. -/
theorem queue_size_uninitialized_after_init :
    (event_queue_push true (event_queue_init { head := [], size := 5 })
        sampleEvent).1.size = 6 ∧
    (event_queue_push true (event_queue_init { head := [], size := 5 })
        sampleEvent).1.head.length = 1 ∧
    event_queue_drain 1
        (event_queue_push true (event_queue_init { head := [], size := 5 })
          sampleEvent).1 = [sampleEvent] :=
  ⟨rfl, rfl, rfl⟩

/-- C10: if node allocation fails during `event_queue_push` (lines 81-87),
the queue is returned completely unchanged (same events, same order, same
`size` field) and the trace shows the lock acquired and then released
before the early return, leaving no lock outstanding. -/
theorem push_alloc_failure_atomic (q : EventQueue) (e : Event) :
    (event_queue_push false q e).1 = q ∧
    (event_queue_push false q e).2 = [LockAct.acq, LockAct.rel] ∧
    locksHeld (event_queue_push false q e).2 = 0 :=
  ⟨rfl, rfl, rfl⟩

/-- C9 counterexample: the claim says a FAST worker's delay is exactly half
`processing_time_ms`. The code computes `processing_time / 2` with C `int`
division, which truncates: at `processing_time = 3` the adjusted delay is
1, and `2 * 1 = 3` fails, so the delay is not exactly half. -/
theorem fast_rate_not_exact_half :
    adjusted_processing_time SysStatus.fast 3 = 1 ∧
    ¬ 2 * adjusted_processing_time SysStatus.fast 3 = 3 := by
  refine ⟨rfl, ?_⟩
  decide

/-- C9 amended: SLOW scales the delay by exactly 2, FAST divides it by 2
with truncation toward zero (exactly half only when `processing_time_ms`
is even), and any status other than SLOW and FAST (STANDARD in
particular) leaves it unchanged. -/
theorem adjusted_time_amended (pt : Int) (st : SysStatus) :
    (st = SysStatus.slow → adjusted_processing_time st pt = 2 * pt) ∧
    (st = SysStatus.fast → adjusted_processing_time st pt = pt.tdiv 2 ∧
      (2 ∣ pt → 2 * adjusted_processing_time st pt = pt)) ∧
    (st ≠ SysStatus.slow → st ≠ SysStatus.fast →
      adjusted_processing_time st pt = pt) := by
  refine ⟨?_, ?_, ?_⟩
  · intro h
    subst h
    show pt * 2 = 2 * pt
    ring
  · intro h
    subst h
    refine ⟨rfl, ?_⟩
    rintro ⟨k, hk⟩
    subst hk
    show 2 * Int.tdiv (2 * k) 2 = 2 * k
    rw [Int.mul_tdiv_cancel_left k (by norm_num)]
  · intro h1 h2
    cases st <;> simp_all [adjusted_processing_time]

/-- C9 amended witness: at `processing_time = 10` a FAST worker's adjusted
delay doubles back to 10. -/
theorem adjusted_time_amended_witness :
    2 * adjusted_processing_time SysStatus.fast 10 = 10 :=
  ((adjusted_time_amended 10 SysStatus.fast).2.1 rfl).2 ⟨5, rfl⟩

/-- C8: `event_queue_pop` on an empty queue returns 0 without writing the
out-parameter and leaves the queue (head and size) unchanged; on a
non-empty queue it removes the head node, copies its event out, decrements
`size`, and returns 1 (non-zero). -/
theorem pop_spec (q : EventQueue) :
    (q.head = [] →
      event_queue_pop q = { retval := 0, queue := q, out := none }) ∧
    (∀ h t, q.head = h :: t →
      (event_queue_pop q).retval = 1 ∧ (event_queue_pop q).retval ≠ 0 ∧
      (event_queue_pop q).queue = { head := t, size := q.size - 1 } ∧
      (event_queue_pop q).out = some h) := by
  obtain ⟨hd, sz⟩ := q
  cases hd with
  | nil =>
      refine ⟨fun _ => rfl, fun h t ht => ?_⟩
      cases ht
  | cons a l =>
      refine ⟨fun he => List.noConfusion he, fun h t ht => ?_⟩
      injection ht with h1 h2
      subst h1
      subst h2
      refine ⟨rfl, ?_, rfl, rfl⟩
      show (1 : Int) ≠ 0
      decide

/-- C8 witness: popping the concrete empty queue returns 0 and leaves it
unchanged; popping a one-event queue returns 1. -/
theorem pop_spec_witness :
    event_queue_pop { head := [], size := 7 }
        = { retval := 0, queue := { head := [], size := 7 }, out := none } ∧
    (event_queue_pop { head := [sampleEvent], size := 1 }).retval = 1 :=
  ⟨(pop_spec { head := [], size := 7 }).1 rfl,
    ((pop_spec { head := [sampleEvent], size := 1 }).2 sampleEvent [] rfl).1⟩

/-- C2: the consume step of `system_convert` on a non-null resource: when the
requested amount is at most the current amount it subtracts the full amount
and reports `STATUS_OK`; otherwise the resource is unchanged and the status
is `STATUS_EMPTY` when the current amount is 0 and `STATUS_INSUFFICIENT`
otherwise (no partial consumption). -/
theorem try_consume_spec (r : Resource) (req : Int) (pn : Bool)
    (pa st : Int) :
    (req ≤ r.amount →
      ∃ o, system_convert (some r) req pn pa st = Except.ok o ∧
        o.status = Status.ok ∧
        o.consumed_resource.amount = r.amount - req ∧
        o.consumed_resource.max_capacity = r.max_capacity) ∧
    (r.amount < req →
      ∃ o, system_convert (some r) req pn pa st = Except.ok o ∧
        o.consumed_resource = r ∧
        o.status =
          (if r.amount = 0 then Status.empty else Status.insufficient)) := by
  constructor
  · intro hle
    refine ⟨_, rfl, ?_⟩
    simp [system_convert_body, hle]
  · intro hlt
    have hnot : ¬ r.amount ≥ req := by omega
    refine ⟨_, rfl, ?_⟩
    by_cases h0 : r.amount = 0
    · have hle0 : ¬ req ≤ 0 := by omega
      simp [system_convert_body, h0, hle0]
    · simp [system_convert_body, hnot, h0]

/-- C2 witness: consuming 3 from a resource holding 5 of 10 succeeds and
leaves 2. -/
theorem try_consume_spec_witness :
    ∃ o, system_convert (some { amount := 5, max_capacity := 10 }) 3 false 25 0
        = Except.ok o ∧
      o.status = Status.ok ∧ o.consumed_resource.amount = 5 - 3 ∧
      o.consumed_resource.max_capacity = 10 :=
  (try_consume_spec { amount := 5, max_capacity := 10 } 3 false 25 0).1
    (by decide)

/-- C3: `system_store_resources` with `space = max_capacity - amount`: when
`space >= amount_stored` it stores everything and reports `STATUS_OK` with
leftover 0; when `0 < space < amount_stored` it fills the resource to
`max_capacity`, keeps leftover `amount_stored - space` in the worker's
`amount_stored`, and reports `STATUS_CAPACITY`; when `space = 0` (and
there is something to store) it stores nothing, keeps the full leftover in
`amount_stored`, and reports `STATUS_CAPACITY`. -/
theorem try_store_spec (r : Resource) (amt : Int)
    (hinv : 0 ≤ r.amount ∧ r.amount ≤ r.max_capacity) (ha : 0 ≤ amt) :
    (r.max_capacity - r.amount ≥ amt →
      ∃ o, system_store_resources (some r) amt = Except.ok o ∧
        o.status = Status.ok ∧ o.resource.amount = r.amount + amt ∧
        o.resource.max_capacity = r.max_capacity ∧ o.amount_stored = 0) ∧
    (0 < r.max_capacity - r.amount → r.max_capacity - r.amount < amt →
      ∃ o, system_store_resources (some r) amt = Except.ok o ∧
        o.status = Status.capacity ∧
        o.resource.amount = r.max_capacity ∧
        o.resource.max_capacity = r.max_capacity ∧
        o.amount_stored = amt - (r.max_capacity - r.amount)) ∧
    (r.max_capacity - r.amount = 0 → 0 < amt →
      ∃ o, system_store_resources (some r) amt = Except.ok o ∧
        o.status = Status.capacity ∧ o.resource = r ∧
        o.amount_stored = amt) := by
  refine ⟨?_, ?_, ?_⟩
  · intro hge
    refine ⟨_, rfl, ?_⟩
    by_cases hz : amt = 0
    · simp [system_store_resources_body, hz]
    · simp [system_store_resources_body, hz, hge]
  · intro hpos hlt
    have hz : ¬ amt = 0 := by omega
    have hnge : ¬ r.max_capacity - r.amount ≥ amt := by omega
    have hne : ¬ amt - (r.max_capacity - r.amount) = 0 := by omega
    refine ⟨_, rfl, ?_⟩
    simp [system_store_resources_body, hz, hnge, hpos, hne]
  · intro hzero hpos
    have hz : ¬ amt = 0 := by omega
    have hnge : ¬ r.max_capacity - r.amount ≥ amt := by omega
    have hnpos : ¬ r.max_capacity - r.amount > 0 := by omega
    refine ⟨_, rfl, ?_⟩
    simp [system_store_resources_body, hz, hnge, hnpos]

/-- C3 witness: storing 4 into a resource holding 3 of 5 (space 2) fills it
to 5, retains leftover 2, and reports `STATUS_CAPACITY`. -/
theorem try_store_spec_witness :
    ∃ o, system_store_resources (some { amount := 3, max_capacity := 5 }) 4
        = Except.ok o ∧
      o.status = Status.capacity ∧ o.resource.amount = 5 ∧
      o.resource.max_capacity = 5 ∧ o.amount_stored = 4 - (5 - 3) :=
  (try_store_spec { amount := 3, max_capacity := 5 } 4 (by decide)
      (by decide)).2.1 (by decide) (by decide)

/-- One call in a sequence of operations on a single Resource: `consume req`
is the consume step of `system_convert`, `store amt` is a
`system_store_resources` call. -/
inductive ResOp where
  | consume (req : Int)
  | store (amt : Int)
deriving DecidableEq, Repr

/-- The amount the operation asks to move. -/
def ResOp.requested : ResOp → Int
  | ResOp.consume a => a
  | ResOp.store a => a

/-- The update one call makes to the Resource, read off from
`system_convert` / `system_store_resources`. -/
def applyOp (r : Resource) : ResOp → Resource
  | ResOp.consume req =>
      match system_convert (some r) req true 0 0 with
      | Except.ok o => o.consumed_resource
      | Except.error _ => r
  | ResOp.store amt =>
      match system_store_resources (some r) amt with
      | Except.ok o => o.resource
      | Except.error _ => r

/-- The resource left by the consume step of `system_convert`, as an explicit
case split, together with preservation of `max_capacity`. -/
theorem convert_body_amount (r : Resource) (req : Int) (pn : Bool)
    (pa st : Int) :
    (system_convert_body r req pn pa st).consumed_resource.amount =
      (if req ≤ r.amount then r.amount - req else r.amount) ∧
    (system_convert_body r req pn pa st).consumed_resource.max_capacity
      = r.max_capacity := by
  by_cases hge : r.amount ≥ req
  · simp [system_convert_body, hge]
  · have hlt : ¬ req ≤ r.amount := by omega
    by_cases h0 : r.amount = 0
    · have hle0 : ¬ req ≤ 0 := by omega
      simp [system_convert_body, h0, hle0]
    · simp [system_convert_body, hge, h0, hlt]

/-- The resource left by `system_store_resources`, as an explicit case
split, together with preservation of `max_capacity`. -/
theorem store_body_amount (r : Resource) (amt : Int) :
    (system_store_resources_body r amt).resource.amount =
      (if amt = 0 then r.amount
       else if r.max_capacity - r.amount ≥ amt then r.amount + amt
       else if 0 < r.max_capacity - r.amount then r.max_capacity
       else r.amount) ∧
    (system_store_resources_body r amt).resource.max_capacity
      = r.max_capacity := by
  by_cases hz : amt = 0
  · simp [system_store_resources_body, hz]
  · by_cases hge : r.max_capacity - r.amount ≥ amt
    · simp [system_store_resources_body, hz, hge]
    · by_cases hpos : r.max_capacity - r.amount > 0
      · have hne : ¬ amt - (r.max_capacity - r.amount) = 0 := by omega
        simp [system_store_resources_body, hz, hge, hpos, hne]
      · simp [system_store_resources_body, hz, hge, hpos]

/-- A single consume or store call keeps `0 <= amount <= max_capacity` and
never changes `max_capacity`, provided the requested amount is
non-negative. -/
theorem applyOp_step (r : Resource) (op : ResOp)
    (h0 : 0 ≤ r.amount) (h1 : r.amount ≤ r.max_capacity)
    (hop : 0 ≤ op.requested) :
    0 ≤ (applyOp r op).amount ∧
      (applyOp r op).amount ≤ (applyOp r op).max_capacity := by
  cases op with
  | consume req =>
      have hop' : 0 ≤ req := hop
      have h := convert_body_amount r req true 0 0
      show 0 ≤ (system_convert_body r req true 0 0).consumed_resource.amount ∧
        (system_convert_body r req true 0 0).consumed_resource.amount ≤
          (system_convert_body r req true 0 0).consumed_resource.max_capacity
      rw [h.1, h.2]
      split_ifs <;> omega
  | store amt =>
      have hop' : 0 ≤ amt := hop
      have h := store_body_amount r amt
      show 0 ≤ (system_store_resources_body r amt).resource.amount ∧
        (system_store_resources_body r amt).resource.amount ≤
          (system_store_resources_body r amt).resource.max_capacity
      rw [h.1, h.2]
      split_ifs <;> omega

/-- C1: starting from a Resource with `0 <= amount <= max_capacity`, any
sequence of consume/store calls with non-negative requested amounts keeps
`0 <= amount <= max_capacity` after every call (every prefix of a sequence
is itself such a sequence, so the bound holds at each intermediate
state). -/
theorem capacity_invariant_holds (ops : List ResOp) (r : Resource)
    (h0 : 0 ≤ r.amount) (h1 : r.amount ≤ r.max_capacity)
    (hops : ∀ op ∈ ops, 0 ≤ op.requested) :
    0 ≤ (ops.foldl applyOp r).amount ∧
      (ops.foldl applyOp r).amount ≤ (ops.foldl applyOp r).max_capacity := by
  induction ops generalizing r with
  | nil => exact ⟨h0, h1⟩
  | cons op ops ih =>
      have hop : 0 ≤ op.requested := hops op (List.mem_cons_self op ops)
      have hstep := applyOp_step r op h0 h1 hop
      exact ih (applyOp r op) hstep.1 hstep.2
        (fun o ho => hops o (List.mem_cons_of_mem _ ho))

/-- C1 witness: consuming 3 then storing 4 on a resource holding 5 of 6
lands inside the bounds. -/
theorem capacity_invariant_holds_witness :
    0 ≤ (([ResOp.consume 3, ResOp.store 4]).foldl applyOp
          { amount := 5, max_capacity := 6 }).amount ∧
      (([ResOp.consume 3, ResOp.store 4]).foldl applyOp
          { amount := 5, max_capacity := 6 }).amount ≤
        (([ResOp.consume 3, ResOp.store 4]).foldl applyOp
          { amount := 5, max_capacity := 6 }).max_capacity :=
  capacity_invariant_holds [ResOp.consume 3, ResOp.store 4]
    { amount := 5, max_capacity := 6 } (by decide) (by decide) (by decide)

/-- Boolean test used by the push walk: the queued node keeps its place when
its priority is at least the new event's priority. -/
def prioGE (e x : Event) : Bool := decide (e.priority ≤ x.priority)

/-- Boolean test selecting the events of one priority level. -/
def prioEq (p : Int) (x : Event) : Bool := decide (x.priority = p)

/-- The queue is in descending priority order from the consumer's side. -/
def sortedDesc (l : List Event) : Prop :=
  List.Pairwise (fun a b => b.priority ≤ a.priority) l

/-- The while-loop walk of `event_queue_push` inserts the new event right
after the run of nodes with priority at least the new event's priority. -/
theorem ilp_eq_takeWhile (e : Event) (t : List Event) :
    insert_lower_priority e t =
      t.takeWhile (prioGE e) ++ e :: t.dropWhile (prioGE e) := by
  induction t with
  | nil => rfl
  | cons n rest ih =>
      simp only [insert_lower_priority, List.takeWhile_cons,
        List.dropWhile_cons]
      by_cases hc : n.priority ≥ e.priority
      · have hb : prioGE e n = true := by simp [prioGE]; omega
        rw [if_pos hc, hb, ih]
        simp
      · have hb : prioGE e n = false := by simp [prioGE]; omega
        rw [if_neg hc, hb]
        simp

/-- The insertion of `event_queue_push` places the new event immediately
after the run of queued events whose priority is at least the new event's
priority. -/
theorem insert_eq_takeWhile (l : List Event) (e : Event) :
    event_queue_insert l e =
      l.takeWhile (prioGE e) ++ e :: l.dropWhile (prioGE e) := by
  cases l with
  | nil => rfl
  | cons h t =>
      simp only [event_queue_insert, List.takeWhile_cons, List.dropWhile_cons]
      by_cases hc : h.priority < e.priority
      · have hb : prioGE e h = false := by simp [prioGE]; omega
        rw [if_pos hc, hb]
        simp
      · have hb : prioGE e h = true := by simp [prioGE]; omega
        rw [if_neg hc, hb, ilp_eq_takeWhile]
        simp

/-- In a descending-priority queue, everything past the run of events with
priority at least `e.priority` has priority strictly below it. -/
theorem dropWhile_priority_lt (e : Event) (l : List Event)
    (hs : sortedDesc l) :
    ∀ x ∈ l.dropWhile (prioGE e), x.priority < e.priority := by
  induction l with
  | nil =>
      intro x hx
      simp [List.dropWhile] at hx
  | cons h t ih =>
      rw [sortedDesc, List.pairwise_cons] at hs
      intro x hx
      rw [List.dropWhile_cons] at hx
      by_cases hc : e.priority ≤ h.priority
      · rw [if_pos (by simp [prioGE, hc])] at hx
        exact ih hs.2 x hx
      · rw [if_neg (by simp [prioGE, hc])] at hx
        rcases List.mem_cons.mp hx with rfl | hxt
        · omega
        · have := hs.1 x hxt
          omega

/-- Inserting with `event_queue_push` keeps the queue in descending
priority order. -/
theorem sortedDesc_insert (l : List Event) (e : Event) (hs : sortedDesc l) :
    sortedDesc (event_queue_insert l e) := by
  rw [insert_eq_takeWhile]
  have hAB : sortedDesc (l.takeWhile (prioGE e) ++ l.dropWhile (prioGE e)) := by
    rwa [List.takeWhile_append_dropWhile]
  rw [sortedDesc, List.pairwise_append] at hAB
  obtain ⟨hA, hB, hcross⟩ := hAB
  rw [sortedDesc, List.pairwise_append]
  refine ⟨hA, ?_, ?_⟩
  · rw [List.pairwise_cons]
    exact ⟨fun b hb => le_of_lt (dropWhile_priority_lt e l hs b hb), hB⟩
  · intro a ha y hy
    rcases List.mem_cons.mp hy with rfl | hyB
    · have := List.mem_takeWhile_imp ha
      simpa [prioGE] using this
    · exact hcross a ha y hyB

/-- Inserting with `event_queue_push` appends the new event behind all
queued events of its own priority level: each priority level stays in
arrival order. -/
theorem filter_event_queue_insert (l : List Event) (e : Event) (p : Int)
    (hs : sortedDesc l) :
    (event_queue_insert l e).filter (prioEq p) =
      l.filter (prioEq p) ++ (if e.priority = p then [e] else []) := by
  have hl : l.filter (prioEq p) =
      (l.takeWhile (prioGE e)).filter (prioEq p) ++
        (l.dropWhile (prioGE e)).filter (prioEq p) := by
    rw [← List.filter_append, List.takeWhile_append_dropWhile]
  rw [insert_eq_takeWhile, List.filter_append, List.filter_cons, hl]
  by_cases hep : e.priority = p
  · have hB : (l.dropWhile (prioGE e)).filter (prioEq p) = [] := by
      rw [List.filter_eq_nil_iff]
      intro b hb
      have := dropWhile_priority_lt e l hs b hb
      simp [prioEq]
      omega
    simp [prioEq, hep, hB]
  · simp [prioEq, hep]

/-- Folding pushes over a sorted queue keeps it sorted and appends each
priority level in push order. -/
theorem foldl_insert_sorted_filter (es : List Event) (q : List Event)
    (hq : sortedDesc q) :
    sortedDesc (es.foldl event_queue_insert q) ∧
      ∀ p, (es.foldl event_queue_insert q).filter (prioEq p) =
          q.filter (prioEq p) ++ es.filter (prioEq p) := by
  induction es generalizing q with
  | nil =>
      exact ⟨hq, fun p => by simp⟩
  | cons e es ih =>
      have hq' := sortedDesc_insert q e hq
      obtain ⟨h1, h2⟩ := ih (event_queue_insert q e) hq'
      refine ⟨h1, fun p => ?_⟩
      show (es.foldl event_queue_insert (event_queue_insert q e)).filter
          (prioEq p) = _
      rw [h2 p, filter_event_queue_insert q e p hq, List.filter_cons]
      by_cases hep : e.priority = p <;> simp [prioEq, hep]

/-- Draining a queue with `event_queue_pop` returns the head list in
order. -/
theorem drain_head (l : List Event) (s : Int) :
    event_queue_drain l.length { head := l, size := s } = l := by
  induction l generalizing s with
  | nil => rfl
  | cons h t ih =>
      simp [event_queue_drain, event_queue_pop, ih]

/-- C4: pushing any sequence of events into an initially empty queue and then
popping them all yields non-increasing priorities; events of equal
priority come out in push order (the filtered subsequence at each
priority level equals the pushed subsequence); and each push inserts the
new event immediately after the run of queued events with priority at
least its own. -/
theorem priority_queue_ordering (es : List Event) :
    List.Pairwise (fun a b : Int => b ≤ a)
      ((event_queue_drain (es.foldl event_queue_insert []).length
          { head := es.foldl event_queue_insert [], size := 0 }).map
        Event.priority) ∧
    (∀ p, (es.foldl event_queue_insert []).filter (prioEq p)
        = es.filter (prioEq p)) ∧
    (∀ l e, event_queue_insert l e =
        l.takeWhile (prioGE e) ++ e :: l.dropWhile (prioGE e)) := by
  obtain ⟨hs, hf⟩ := foldl_insert_sorted_filter es [] List.Pairwise.nil
  refine ⟨?_, ?_, insert_eq_takeWhile⟩
  · rw [drain_head, List.pairwise_map]
    exact hs
  · intro p
    simpa using hf p

end VGS
